import Mathlib

/-!
# Verification of `paperman` (src/main.rs)

A shallow embedding of the path logic of the `paperman` dotfile utility.
Filesystem paths are modelled the way Rust's `std::path` treats them: as
lists of components (`RootDir`, `ParentDir`, normal names), so that the
component-wise semantics of `starts_with`, `strip_prefix`, `push`, `pop`,
`file_name`, `parent` and `Path` equality are captured exactly.
Filesystem calls (`symlink_metadata`, `canonicalize`, `create_dir_all`,
`rename`, `symlink`) are injected as oracles, and `add` is translated
statement by statement from the source, recording each mutating call in an
event trace.
-/

set_option autoImplicit false

namespace Paperman

/-! ## Data model -/

/-- One component of a filesystem path, mirroring Rust's
`std::path::Component` as used by this program: the root directory `/`,
a parent-directory marker `..`, or a normal named component. -/
inductive Comp where
  | root : Comp
  | parent : Comp
  | normal : String → Comp
deriving DecidableEq, Repr

/-- A path is its list of components, exactly as Rust's `Path::components`
iterates them (Rust compares, prefixes and strips paths component-wise). -/
abbrev RPath := List Comp

instance exceptDecEq {ε α : Type} [DecidableEq ε] [DecidableEq α] :
    DecidableEq (Except ε α) := fun
  | Except.ok a, Except.ok b =>
    if h : a = b then isTrue (by rw [h])
    else isFalse (fun hh => h (Except.ok.inj hh))
  | Except.ok _, Except.error _ => isFalse (fun hh => Except.noConfusion hh)
  | Except.error _, Except.ok _ => isFalse (fun hh => Except.noConfusion hh)
  | Except.error e, Except.error f =>
    if h : e = f then isTrue (by rw [h])
    else isFalse (fun hh => h (Except.error.inj hh))

/-- Rust `PathBuf::push` / `Path::join`: pushing an absolute path replaces
the buffer, pushing a relative path appends its components. -/
def pathPush (p q : RPath) : RPath :=
  if q.head? = some Comp.root then q else p ++ q

/-- Rust `Path::file_name`: the last component if it is a normal name,
`none` for `..`, the root, or the empty path. -/
def fileName (p : RPath) : Option String :=
  match p.getLast? with
  | some (Comp.normal s) => some s
  | _ => none

/-- Rust `PathBuf::pop` / `Path::parent`: drop the last component; `none`
when the path has no parent (the bare root, or the empty path). -/
def popPath : RPath → Option RPath
  | [] => none
  | [Comp.root] => none
  | xs => some xs.dropLast

/-- `expand_tilde` (main.rs:28-45), with `dirs::home_dir()` injected as
`home`.  `path.starts_with("~")` is the component-wise prefix test,
`path == Path::new("~")` component-wise equality, `strip_prefix("~")`
drops that first component, and `home_dir.push(stripped)` is `pathPush`. -/
def expand_tilde (home : Option RPath) (path : RPath) : Option RPath :=
  if ¬ [Comp.normal "~"] <+: path then
    some path
  else
    if path = [Comp.normal "~"] then
      home
    else
      home.map (fun home_dir => pathPush home_dir (path.drop 1))

/-- `FileType` (main.rs:96-101). -/
inductive FileType where
  | Dir : FileType
  | File : FileType
  | Symlink : FileType
deriving DecidableEq, Repr

/-- A directory entry as seen by link-aware (`symlink_metadata`) lookup:
a regular file, a directory, or a symlink carrying its target path.
Sockets, devices and FIFOs are out of scope, as in the source. -/
inductive Entry where
  | file : Entry
  | dir : Entry
  | symlink : RPath → Entry
deriving DecidableEq, Repr

/-- Link-aware metadata of the filesystem: what `symlink_metadata` reports
at each path (`none` when metadata cannot be read: missing path,
permission denied).  A symlink maps to `Entry.symlink target`, never to
the metadata of its target. -/
abbrev FSMeta := RPath → Option Entry

def Entry.is_dir : Entry → Bool
  | Entry.dir => true
  | _ => false

def Entry.is_file : Entry → Bool
  | Entry.file => true
  | _ => false

def Entry.is_symlink : Entry → Bool
  | Entry.symlink _ => true
  | _ => false

/-- `file_type` (main.rs:103-118): read link-aware metadata (`?` turns a
read failure into an error), then test `is_dir`, `is_file`, `is_symlink`
in that order; the final branch is the source's `unreachable!()`, dead
because an `Entry` is one of exactly those three kinds. -/
def file_type (fs : FSMeta) (path : RPath) : Except String FileType :=
  match fs path with
  | none => Except.error "failed to read metadata"
  | some metadata =>
    if metadata.is_dir then Except.ok FileType.Dir
    else if metadata.is_file then Except.ok FileType.File
    else if metadata.is_symlink then Except.ok FileType.Symlink
    else Except.error "unreachable"

/-! ## The relative-path resolver -/

/-- Length of the longest common prefix of two component lists: the number
of components of `base` the ancestor loop of `relative_path_from` keeps. -/
def cpl : List Comp → List Comp → Nat
  | a :: as, b :: bs => if a = b then cpl as bs + 1 else 0
  | _, _ => 0

/-- One unfolding per iteration of the `while` loop of
`relative_path_from` (main.rs:124-132): while `target` does not start
with `base`, pop the last component of `base` and count the pop; if
`base` cannot be popped, fail with the source's error message.  On
success it returns the ascend count together with
`target.strip_prefix(base)`.  `fuel` bounds the number of iterations so
the function is total; `relLoop` supplies `base.length + 1` and
`relLoopFuel_irrel` shows any fuel above `base.length` gives the same
answer, so the sentinel branch is unreachable: the loop, each of whose
iterations shortens `base`, always terminates. -/
def relLoopFuel : Nat → RPath → RPath → Nat → Except String (Nat × RPath)
  | 0, _, _, _ => Except.error "loop did not terminate"
  | fuel + 1, base, target, count =>
    if base <+: target then
      Except.ok (count, target.drop base.length)
    else
      match popPath base with
      | some b => relLoopFuel fuel b target (count + 1)
      | none => Except.error "base cannot be a prefix of target"

/-- The ancestor-walking loop of `relative_path_from`, run to completion
(`base.length + 1` iterations always suffice, see `relLoopFuel_irrel`). -/
def relLoop (base target : RPath) (count : Nat) : Except String (Nat × RPath) :=
  relLoopFuel (base.length + 1) base target count

/-- `relative_path_from` (main.rs:120-139) after both arguments have been
canonicalized: run the ancestor loop, then emit one `..` per counted pop
followed by the stripped suffix (`relpath.join(target.strip_prefix(base))`). -/
def relative_path_from_canon (base target : RPath) : Except String RPath :=
  match relLoop base target 0 with
  | Except.ok (count, stripped) =>
      Except.ok (pathPush (List.replicate count Comp.parent) stripped)
  | Except.error e => Except.error e

/-! ## Strings as paths

Rust's `Path` wraps a byte string and derives its components on the fly;
`parsePath` is that derivation (`Path::components` on Unix): split the
character list on `/`, drop empty and `.` chunks, read `..` as the
parent-directory component, and prepend the root when the string starts
with `/`. -/

/-- Split a character list on `/`, keeping empty chunks (the component
iterator drops them afterwards). -/
def splitSlash (cs : List Char) : List (List Char) :=
  cs.foldr
    (fun c acc =>
      if c = '/' then [] :: acc
      else
        match acc with
        | [] => [[c]]
        | a :: as => (c :: a) :: as)
    [[]]

/-- Interpret one chunk between slashes as a path component, as Rust's
component iterator does: empty and `.` chunks disappear, `..` is the
parent-directory component, anything else is a normal name. -/
def compOfChunk (p : List Char) : Option Comp :=
  if p = [] ∨ p = ['.'] then none
  else if p = ['.', '.'] then some Comp.parent
  else some (Comp.normal (String.mk p))

/-- A path string as its list of components (Unix `Path::components`). -/
def parsePath (cs : List Char) : RPath :=
  let comps := (splitSlash cs).filterMap compOfChunk
  if cs.head? = some '/' then Comp.root :: comps else comps

/-- `relative_path_from` (main.rs:120-139) on path strings:
`fs::canonicalize` is modelled as component parsing, which is what it
amounts to for existing paths already in canonical form (no symlinks,
`.`, `..` or relative segments left to resolve); it also normalizes
trailing and repeated separators away, which `parsePath` captures. -/
def relative_path_from_str (base target : List Char) : Except String RPath :=
  relative_path_from_canon (parsePath base) (parsePath target)

/-- Joining a directory with a relative path and resolving each `..`
against what precedes it, as the filesystem does when following the
produced symlink: `..` removes the last component, every other component
is appended. -/
def normStep (acc : RPath) (c : Comp) : RPath :=
  match c with
  | Comp.parent => acc.dropLast
  | c => acc ++ [c]

/-- Join `base` with the relative path `rel`, normalizing the
parent-directory markers of `rel` away (the round-trip direction of the
resolver). -/
def normJoin (base rel : RPath) : RPath := rel.foldl normStep base

/-! ## The `add` orchestrator -/

/-- Rendering of one component for `Path::display`. -/
def compName : Comp → String
  | Comp.root => ""
  | Comp.parent => ".."
  | Comp.normal s => s

/-- `Path::display` for the diagnostic lines `add` prints. -/
def display : RPath → String
  | [] => ""
  | Comp.root :: rest => "/" ++ String.intercalate "/" (rest.map compName)
  | comps => String.intercalate "/" (comps.map compName)

/-- `Config` (main.rs:12-15): the one configuration value, `repo_dir`. -/
structure Config where
  repo_dir : RPath

/-- The filesystem calls `add` makes, injected as oracles: link-aware
metadata lookup for `file_type`, plus `fs::canonicalize`,
`fs::create_dir_all`, `fs::rename` and `unix::fs::symlink`, each able to
fail with an I/O error message. -/
structure World where
  fsmeta : FSMeta
  canonicalize : RPath → Except String RPath
  create_dir_all : RPath → Except String Unit
  rename : RPath → RPath → Except String Unit
  symlink : RPath → RPath → Except String Unit

/-- `relative_path_from` (main.rs:120-139) with `fs::canonicalize`
injected: canonicalize both arguments (`?` propagates a failure), then
run the pure resolver. -/
def relative_path_from (canon : RPath → Except String RPath)
    (base target : RPath) : Except String RPath :=
  match canon base with
  | Except.error e => Except.error e
  | Except.ok b =>
    match canon target with
    | Except.error e => Except.error e
    | Except.ok t => relative_path_from_canon b t

/-- Observable actions of one `add` run: the mutating filesystem calls it
issues, in order, and the diagnostic lines it writes to stderr. -/
inductive Event where
  | create_dir_all : RPath → Event
  | rename : RPath → RPath → Event
  | symlink : RPath → RPath → Event
  | eprintln : String → Event
deriving DecidableEq, Repr

def Event.isEprintln : Event → Bool
  | Event.eprintln _ => true
  | _ => false

/-- How an `add` run ends: `Ok(())`, an early `Err` returned through `?`,
or a panic from one of the `unwrap()` calls. -/
inductive Outcome where
  | ok : Outcome
  | error : String → Outcome
  | panicked : String → Outcome
deriving DecidableEq, Repr

def dirReason : String := "file is a directory, which cannot be added"

def symlinkReason : String := "file is a symlink, which cannot be added"

/-- The `for fp in files` loop of `add` (main.rs:64-84), translated
statement by statement.  The `match` on `file_type` only records
directories and symlinks in `failed`; there is no `continue`, so control
falls through to the canonicalize/move/link steps for every
classification.  The `Result`s of `fs::rename` (main.rs:79) and `symlink`
(main.rs:83) are discarded by the source, so the corresponding oracle
results are dropped here and only the calls are logged;
`create_dir_all(..).unwrap()` (main.rs:78) and the two `unwrap()`s on
`file_name`/`parent` turn failure into a panic. -/
def addLoop (w : World) (config : Config) :
    List RPath → List (RPath × String) → List Event →
    Outcome × List (RPath × String) × List Event
  | [], failed, events => (Outcome.ok, failed, events)
  | fp :: files, failed, events =>
    match file_type w.fsmeta fp with
    | Except.error e => (Outcome.error e, failed, events)
    | Except.ok ft =>
      let failed :=
        match ft with
        | FileType.Dir => failed ++ [(fp, dirReason)]
        | FileType.Symlink => failed ++ [(fp, symlinkReason)]
        | FileType.File => failed
      match w.canonicalize fp with
      | Except.error e => (Outcome.error e, failed, events)
      | Except.ok fpc =>
        match fileName fpc with
        | none =>
          (Outcome.panicked "called Option::unwrap on a None value", failed, events)
        | some name =>
          let toDest := pathPush config.repo_dir [Comp.normal name]
          let events := events ++ [Event.create_dir_all config.repo_dir]
          match w.create_dir_all config.repo_dir with
          | Except.error e => (Outcome.panicked e, failed, events)
          | Except.ok _ =>
            let _ := w.rename fpc toDest
            let events := events ++ [Event.rename fpc toDest]
            match popPath fpc with
            | none =>
              (Outcome.panicked "called Option::unwrap on a None value", failed, events)
            | some parentDir =>
              match relative_path_from w.canonicalize parentDir toDest with
              | Except.error e => (Outcome.error e, failed, events)
              | Except.ok src =>
                let _ := w.symlink src fpc
                let events := events ++ [Event.symlink src fpc]
                addLoop w config files failed events

/-- `add` (main.rs:62-94): run the loop over all inputs, then, if any
path was recorded in `failed`, print the header line and one
tab-indented line per (path, reason) pair to stderr, and return `Ok(())`. -/
def add (w : World) (files : List RPath) (config : Config) :
    Outcome × List Event :=
  match addLoop w config files [] [] with
  | (Outcome.ok, failed, events) =>
    let events :=
      if failed.length > 0 then
        events ++ [Event.eprintln "The following paths are ignored:"]
          ++ failed.map (fun fr => Event.eprintln (display fr.1 ++ "\t(" ++ fr.2 ++ ")"))
      else events
    (Outcome.ok, events)
  | (out, _, events) => (out, events)

/-- All filesystem calls made for input `fp` succeed (and the two
`unwrap()`ed options are populated): the hypothesis of the all-succeed
claims about a batch. -/
def stepOk (w : World) (config : Config) (fp : RPath) : Bool :=
  match file_type w.fsmeta fp with
  | Except.error _ => false
  | Except.ok _ =>
    match w.canonicalize fp with
    | Except.error _ => false
    | Except.ok fpc =>
      match fileName fpc with
      | none => false
      | some name =>
        (w.create_dir_all config.repo_dir).isOk &&
        match popPath fpc with
        | none => false
        | some parentDir =>
          (relative_path_from w.canonicalize parentDir
            (pathPush config.repo_dir [Comp.normal name])).isOk

/-- The (path, reason) pairs `add` records for a list of inputs: one per
input classified as a directory or a symlink, in input order. -/
def skippedOf (w : World) (files : List RPath) : List (RPath × String) :=
  files.filterMap (fun fp =>
    match file_type w.fsmeta fp with
    | Except.ok FileType.Dir => some (fp, dirReason)
    | Except.ok FileType.Symlink => some (fp, symlinkReason)
    | _ => none)

/-! ## Lemmas -/

lemma popPath_length {xs b : RPath} (h : popPath xs = some b) :
    b.length < xs.length := by
  match xs with
  | [] => simp [popPath] at h
  | [Comp.root] => simp [popPath] at h
  | [Comp.parent] =>
    simp [popPath] at h
    simp [← h]
  | [Comp.normal s] =>
    simp [popPath] at h
    simp [← h]
  | x :: y :: rest =>
    have : popPath (x :: y :: rest) = some ((x :: y :: rest).dropLast) := by
      cases x <;> rfl
    rw [this] at h
    cases h
    simp [List.length_dropLast]

/-- Any fuel exceeding `base.length` yields the same result: the loop
finishes (successfully or with the no-common-ancestor error) within
`base.length + 1` iterations, because every iteration shortens `base`. -/
lemma relLoopFuel_irrel : ∀ (f g : Nat) (base target : RPath) (c : Nat),
    base.length < f → base.length < g →
    relLoopFuel f base target c = relLoopFuel g base target c := by
  intro f
  induction f with
  | zero => intro g base target c hf; omega
  | succ f ih =>
    intro g base target c hf hg
    match g, hg with
    | g + 1, _ =>
      simp only [relLoopFuel]
      by_cases hp : base <+: target
      · simp [hp]
      · simp only [if_neg hp]
        cases hpop : popPath base with
        | none => rfl
        | some b =>
          have hb := popPath_length hpop
          exact ih g b target (c + 1) (by omega) (by omega)

lemma relLoop_fuel {f : Nat} {base target : RPath} {c : Nat}
    (h : base.length < f) :
    relLoopFuel f base target c = relLoop base target c :=
  relLoopFuel_irrel f (base.length + 1) base target c h (Nat.lt_succ_self _)

lemma cpl_le_left : ∀ (as bs : List Comp), cpl as bs ≤ as.length
  | [], _ => by simp [cpl]
  | _ :: _, [] => by simp [cpl]
  | a :: as, b :: bs => by
    by_cases hab : a = b
    · simpa [cpl, hab] using cpl_le_left as bs
    · simp [cpl, hab]

lemma cpl_eq_length_iff : ∀ (as bs : List Comp),
    cpl as bs = as.length ↔ as <+: bs
  | [], bs => by simp [cpl]
  | a :: as, [] => by
    simp [cpl]
  | a :: as, b :: bs => by
    by_cases hab : a = b
    · subst hab
      simp [cpl, List.cons_prefix_cons, cpl_eq_length_iff as bs]
    · simp [cpl, hab, List.cons_prefix_cons]

lemma cpl_take : ∀ (as bs : List Comp), as.take (cpl as bs) = bs.take (cpl as bs)
  | [], bs => by simp [cpl]
  | _ :: _, [] => by simp [cpl]
  | a :: as, b :: bs => by
    by_cases hab : a = b
    · simp [cpl, hab, cpl_take as bs]
    · simp [cpl, hab]

lemma cpl_dropLast : ∀ (as bs : List Comp), ¬ as <+: bs →
    cpl as.dropLast bs = cpl as bs
  | [], bs, h => by simp at h
  | a :: as, [], h => by
    cases as with
    | nil => simp [cpl]
    | cons a' as' => simp [cpl, List.dropLast]
  | a :: as, b :: bs, h => by
    by_cases hab : a = b
    · subst hab
      have has : ¬ as <+: bs := fun hp => h (List.cons_prefix_cons.mpr ⟨rfl, hp⟩)
      cases as with
      | nil => simp at has
      | cons a' as' =>
        have hne : a' :: as' ≠ [] := by simp
        simp only [List.dropLast_cons_of_ne_nil hne, cpl, if_pos rfl]
        rw [cpl_dropLast (a' :: as') bs has]
    · cases as with
      | nil => simp [cpl, hab, List.dropLast]
      | cons a' as' =>
        have hne : a' :: as' ≠ [] := by simp
        simp [List.dropLast_cons_of_ne_nil hne, cpl, hab]

lemma cpl_lt_length {as bs : List Comp} (h : ¬ as <+: bs) :
    cpl as bs < as.length :=
  Nat.lt_of_le_of_ne (cpl_le_left as bs)
    (fun he => h ((cpl_eq_length_iff as bs).mp he))

/-- Characterization of the ancestor loop on two absolute paths: it always
succeeds, popping `base` exactly down to the common prefix, so the ascend
count grows by the number of components of `base` beyond the common prefix
and the suffix is `target` minus the common prefix. -/
lemma relLoop_abs : ∀ (n : Nat) (bs ts : List Comp) (c : Nat), bs.length = n →
    relLoop (Comp.root :: bs) (Comp.root :: ts) c =
      Except.ok (c + (bs.length - cpl bs ts), ts.drop (cpl bs ts)) := by
  intro n
  induction n using Nat.strong_induction_on with
  | _ n ih =>
    intro bs ts c hlen
    rw [relLoop]
    simp only [List.length_cons]
    rw [relLoopFuel]
    by_cases hp : (Comp.root :: bs) <+: (Comp.root :: ts)
    · rw [if_pos hp]
      have hbs : bs <+: ts := (List.cons_prefix_cons.mp hp).2
      have hc : cpl bs ts = bs.length := (cpl_eq_length_iff bs ts).mpr hbs
      simp [hc]
    · rw [if_neg hp]
      have hbsne : ¬ bs <+: ts := fun hq => hp (List.cons_prefix_cons.mpr ⟨rfl, hq⟩)
      have hbs : bs ≠ [] := by
        intro hnil
        exact hbsne (hnil ▸ List.nil_prefix)
      have hpop : popPath (Comp.root :: bs) = some (Comp.root :: bs.dropLast) := by
        cases bs with
        | nil => exact absurd rfl hbs
        | cons b bs' =>
          exact rfl
      simp only [hpop]
      have hfuel : (Comp.root :: bs.dropLast).length < bs.length + 1 := by
        simp only [List.length_cons, List.length_dropLast]
        have : 0 < bs.length := List.length_pos.mpr hbs
        omega
      rw [relLoop_fuel hfuel]
      have hlt : bs.dropLast.length < n := by
        rw [List.length_dropLast, hlen]
        have : 0 < n := by
          rw [← hlen]
          exact List.length_pos.mpr hbs
        omega
      rw [ih bs.dropLast.length hlt bs.dropLast ts (c + 1) rfl]
      have hcd : cpl bs.dropLast ts = cpl bs ts := cpl_dropLast bs ts hbsne
      have hclt : cpl bs ts < bs.length := cpl_lt_length hbsne
      rw [hcd]
      have harith : c + 1 + (bs.dropLast.length - cpl bs ts)
          = c + (bs.length - cpl bs ts) := by
        rw [List.length_dropLast]
        omega
      rw [harith]

/-- `relative_path_from` on two already-canonical absolute paths never
takes the error branch and pops `base` exactly down to the longest common
prefix. -/
lemma relative_path_from_canon_abs (bs ts : List Comp) :
    relative_path_from_canon (Comp.root :: bs) (Comp.root :: ts) =
      Except.ok (pathPush (List.replicate (bs.length - cpl bs ts) Comp.parent)
        (ts.drop (cpl bs ts))) := by
  unfold relative_path_from_canon
  rw [relLoop_abs bs.length bs ts 0 rfl]
  simp

lemma splitSlash_ne_nil (cs : List Char) : splitSlash cs ≠ [] := by
  induction cs with
  | nil => simp [splitSlash]
  | cons c cs ih =>
    simp only [splitSlash, List.foldr_cons]
    by_cases hc : c = '/'
    · simp [hc]
    · simp only [if_neg hc]
      cases h : splitSlash cs with
      | nil => exact absurd h ih
      | cons a as =>
        simp only [splitSlash] at h
        rw [h]
        simp

/-- Appending a trailing slash appends one empty chunk. -/
lemma splitSlash_append_slash (cs : List Char) :
    splitSlash (cs ++ ['/']) = splitSlash cs ++ [[]] := by
  induction cs with
  | nil => rfl
  | cons c cs ih =>
    simp only [List.cons_append, splitSlash, List.foldr_cons] at *
    rw [ih]
    by_cases hc : c = '/'
    · simp [hc]
    · simp only [if_neg hc]
      cases h : splitSlash cs with
      | nil => exact absurd h (splitSlash_ne_nil cs)
      | cons a as =>
        simp only [splitSlash] at h
        rw [h]
        simp

/-- A trailing slash does not change the parsed components. -/
lemma parsePath_append_slash {cs : List Char} (h : cs ≠ []) :
    parsePath (cs ++ ['/']) = parsePath cs := by
  unfold parsePath
  rw [splitSlash_append_slash]
  rw [List.filterMap_append]
  have hchunk : List.filterMap compOfChunk [[]] = [] := rfl
  rw [hchunk, List.append_nil]
  cases cs with
  | nil => exact absurd rfl h
  | cons c cs' => rfl

/-- `cpl` bounds every common prefix: it really is the longest. -/
lemma cpl_ge_common : ∀ (p as bs : List Comp), p <+: as → p <+: bs →
    p.length ≤ cpl as bs := by
  intro p
  induction p with
  | nil => intro as bs _ _; simp
  | cons x p ih =>
    intro as bs h1 h2
    cases as with
    | nil => simp at h1
    | cons a as' =>
      cases bs with
      | nil => simp at h2
      | cons b bs' =>
        obtain ⟨hxa, hpa⟩ := List.cons_prefix_cons.mp h1
        obtain ⟨hxb, hpb⟩ := List.cons_prefix_cons.mp h2
        subst hxa
        subst hxb
        simp only [cpl, if_pos rfl, List.length_cons]
        exact Nat.succ_le_succ (ih as' bs' hpa hpb)

/-- Popping fewer components than the loop does leaves a `base` that is
still not a prefix of `target`: `cpl` counts the pops that are needed. -/
lemma le_cpl_of_take {as bs : List Comp} {j : Nat} (hj : j ≤ as.length)
    (h : as.take j <+: bs) : j ≤ cpl as bs := by
  have h1 : as.take j <+: as := List.take_prefix j as
  have h2 := cpl_ge_common (as.take j) as bs h1 h
  rwa [List.length_take, Nat.min_eq_left hj] at h2

lemma drop_head_ne_root {ts : RPath} {k : Nat} (h : Comp.root ∉ ts) :
    (ts.drop k).head? ≠ some Comp.root := by
  intro hc
  cases hd : ts.drop k with
  | nil => rw [hd] at hc; simp at hc
  | cons a l =>
    rw [hd] at hc
    simp only [List.head?_cons, Option.some.injEq] at hc
    subst hc
    exact h (List.drop_subset k ts (hd ▸ List.mem_cons_self Comp.root l))

lemma pathPush_eq_append {p q : RPath} (h : q.head? ≠ some Comp.root) :
    pathPush p q = p ++ q := by
  simp [pathPush, h]

/-- Folding `k` parent markers over an absolute path pops its last `k`
components (never touching the root while `k` stays within bounds). -/
lemma foldl_replicate_parent : ∀ (k : Nat) (bs : List Comp), k ≤ bs.length →
    (List.replicate k Comp.parent).foldl normStep (Comp.root :: bs)
      = Comp.root :: bs.take (bs.length - k) := by
  intro k
  induction k with
  | zero => intro bs _; simp
  | succ k ih =>
    intro bs hk
    have hbs : bs ≠ [] := by
      intro hnil
      rw [hnil] at hk
      simp at hk
    rw [List.replicate_succ, List.foldl_cons]
    have hstep : normStep (Comp.root :: bs) Comp.parent = Comp.root :: bs.dropLast := by
      simp [normStep, List.dropLast_cons_of_ne_nil hbs]
    rw [hstep]
    have hk' : k ≤ bs.dropLast.length := by
      rw [List.length_dropLast]
      omega
    rw [ih bs.dropLast hk']
    congr 1
    rw [List.length_dropLast, List.dropLast_eq_take, List.take_take]
    congr 1
    omega

/-- Folding a parent-free relative path appends it. -/
lemma foldl_no_parent : ∀ (suffix : RPath) (acc : RPath), Comp.parent ∉ suffix →
    suffix.foldl normStep acc = acc ++ suffix := by
  intro suffix
  induction suffix with
  | nil => intro acc _; simp
  | cons c rest ih =>
    intro acc h
    have hc : c ≠ Comp.parent := fun hh => h (hh ▸ List.mem_cons_self c rest)
    have hstep : normStep acc c = acc ++ [c] := by
      cases c with
      | parent => exact absurd rfl hc
      | root => rfl
      | normal s => rfl
    rw [List.foldl_cons, hstep,
      ih (acc ++ [c]) (fun hm => h (List.mem_cons_of_mem c hm))]
    simp

/-- When every step of the batch succeeds, the loop returns `Ok`, records
exactly the directory and symlink inputs in order, and writes nothing to
stderr while processing. -/
lemma addLoop_ok (w : World) (config : Config) :
    ∀ (files : List RPath) (failed : List (RPath × String)) (events : List Event),
    (∀ fp ∈ files, stepOk w config fp = true) →
    ∃ evs, addLoop w config files failed events
        = (Outcome.ok, failed ++ skippedOf w files, events ++ evs)
      ∧ ∀ e ∈ evs, e.isEprintln = false := by
  intro files
  induction files with
  | nil =>
    intro failed events _
    refine ⟨[], ?_, by simp⟩
    simp [addLoop, skippedOf]
  | cons fp files ih =>
    intro failed events h
    have hfp := h fp (List.mem_cons_self fp files)
    have hrest : ∀ q ∈ files, stepOk w config q = true :=
      fun q hq => h q (List.mem_cons_of_mem fp hq)
    cases hft : file_type w.fsmeta fp with
    | error e => simp [stepOk, hft] at hfp
    | ok ft =>
      cases hc : w.canonicalize fp with
      | error e => simp [stepOk, hft, hc] at hfp
      | ok fpc =>
        cases hn : fileName fpc with
        | none => simp [stepOk, hft, hc, hn] at hfp
        | some name =>
          cases hcd : w.create_dir_all config.repo_dir with
          | error e => simp [stepOk, hft, hc, hn, hcd, Except.isOk, Except.toBool] at hfp
          | ok u =>
            cases hpp : popPath fpc with
            | none => simp [stepOk, hft, hc, hn, hcd, hpp, Except.isOk, Except.toBool] at hfp
            | some parentDir =>
              cases hr : relative_path_from w.canonicalize parentDir
                  (pathPush config.repo_dir [Comp.normal name]) with
              | error e =>
                simp [stepOk, hft, hc, hn, hcd, hpp, hr, Except.isOk, Except.toBool] at hfp
              | ok src =>
                have hfree3 : ∀ (evs : List Event),
                    (∀ e ∈ evs, e.isEprintln = false) →
                    ∀ e ∈ [Event.create_dir_all config.repo_dir,
                      Event.rename fpc (pathPush config.repo_dir [Comp.normal name]),
                      Event.symlink src fpc] ++ evs, e.isEprintln = false := by
                  intro evs hfree e he
                  rcases List.mem_append.mp he with h3 | h3
                  · simp only [List.mem_cons, List.not_mem_nil, or_false] at h3
                    rcases h3 with h4 | h4 | h4 <;> subst h4 <;> rfl
                  · exact hfree e h3
                cases ft with
                | Dir =>
                  obtain ⟨evs, heq, hfree⟩ := ih (failed ++ [(fp, dirReason)])
                    (((events ++ [Event.create_dir_all config.repo_dir])
                      ++ [Event.rename fpc (pathPush config.repo_dir [Comp.normal name])])
                      ++ [Event.symlink src fpc]) hrest
                  refine ⟨[Event.create_dir_all config.repo_dir,
                    Event.rename fpc (pathPush config.repo_dir [Comp.normal name]),
                    Event.symlink src fpc] ++ evs, ?_, hfree3 evs hfree⟩
                  simp only [addLoop, hft, hc, hn, hcd, hpp, hr]
                  rw [heq]
                  simp [skippedOf, List.filterMap_cons, hft]
                | Symlink =>
                  obtain ⟨evs, heq, hfree⟩ := ih (failed ++ [(fp, symlinkReason)])
                    (((events ++ [Event.create_dir_all config.repo_dir])
                      ++ [Event.rename fpc (pathPush config.repo_dir [Comp.normal name])])
                      ++ [Event.symlink src fpc]) hrest
                  refine ⟨[Event.create_dir_all config.repo_dir,
                    Event.rename fpc (pathPush config.repo_dir [Comp.normal name]),
                    Event.symlink src fpc] ++ evs, ?_, hfree3 evs hfree⟩
                  simp only [addLoop, hft, hc, hn, hcd, hpp, hr]
                  rw [heq]
                  simp [skippedOf, List.filterMap_cons, hft]
                | File =>
                  obtain ⟨evs, heq, hfree⟩ := ih failed
                    (((events ++ [Event.create_dir_all config.repo_dir])
                      ++ [Event.rename fpc (pathPush config.repo_dir [Comp.normal name])])
                      ++ [Event.symlink src fpc]) hrest
                  refine ⟨[Event.create_dir_all config.repo_dir,
                    Event.rename fpc (pathPush config.repo_dir [Comp.normal name]),
                    Event.symlink src fpc] ++ evs, ?_, hfree3 evs hfree⟩
                  simp only [addLoop, hft, hc, hn, hcd, hpp, hr]
                  rw [heq]
                  simp [skippedOf, List.filterMap_cons, hft]

/-- `add` never consults the results of `fs::rename` and `symlink`: the
source discards both `Result`s, so the loop behaves identically whatever
those two calls return. -/
lemma addLoop_rename_symlink_irrel (w : World)
    (r s : RPath → RPath → Except String Unit) (config : Config) :
    ∀ (files : List RPath) (failed : List (RPath × String)) (events : List Event),
    addLoop (World.mk w.fsmeta w.canonicalize w.create_dir_all r s) config
        files failed events
      = addLoop w config files failed events := by
  intro files
  induction files with
  | nil => intro failed events; rfl
  | cons fp files ih =>
    intro failed events
    cases hft : file_type w.fsmeta fp with
    | error e => simp [addLoop, hft]
    | ok ft =>
      cases hc : w.canonicalize fp with
      | error e => simp [addLoop, hft, hc]
      | ok fpc =>
        cases hn : fileName fpc with
        | none => simp [addLoop, hft, hc, hn]
        | some name =>
          cases hcd : w.create_dir_all config.repo_dir with
          | error e => simp [addLoop, hft, hc, hn, hcd]
          | ok u =>
            cases hpp : popPath fpc with
            | none => simp [addLoop, hft, hc, hn, hcd, hpp]
            | some parentDir =>
              cases hr : relative_path_from w.canonicalize parentDir
                  (pathPush config.repo_dir [Comp.normal name]) with
              | error e => simp [addLoop, hft, hc, hn, hcd, hpp, hr]
              | ok src =>
                simp only [addLoop, hft, hc, hn, hcd, hpp, hr]
                exact ih _ _

/-! ## Concrete fixtures

Small worlds used to evaluate `add` at concrete inputs. -/

def cRepo : RPath := [Comp.root, Comp.normal "repo"]

def cConfig : Config := ⟨cRepo⟩

/-- An existing directory `/home/alice/docs`. -/
def cDir : RPath := [Comp.root, Comp.normal "home", Comp.normal "alice", Comp.normal "docs"]

/-- A world whose only entry is the directory `cDir`; every filesystem
call succeeds. -/
def cWorldDir : World :=
  { fsmeta := fun p => if p = cDir then some Entry.dir else none
    canonicalize := fun p => Except.ok p
    create_dir_all := fun _ => Except.ok ()
    rename := fun _ _ => Except.ok ()
    symlink := fun _ _ => Except.ok () }

def cFileA : RPath := [Comp.root, Comp.normal "home", Comp.normal "alice", Comp.normal "a.txt"]

def cFileB : RPath := [Comp.root, Comp.normal "home", Comp.normal "alice", Comp.normal "b.txt"]

/-- Two regular files, but a world where every `fs::rename` fails (as on a
cross-filesystem move) and every `symlink` fails as well. -/
def cWorldRenameFails : World :=
  { fsmeta := fun p => if p = cFileA ∨ p = cFileB then some Entry.file else none
    canonicalize := fun p => Except.ok p
    create_dir_all := fun _ => Except.ok ()
    rename := fun _ _ => Except.error "cross-device link"
    symlink := fun _ _ => Except.error "permission denied" }

def cLink : RPath := [Comp.root, Comp.normal "home", Comp.normal "alice", Comp.normal "link"]

def cEtc : RPath := [Comp.root, Comp.normal "etc", Comp.normal "passwd"]

/-- A directory, a regular file and a symlink, with every call succeeding. -/
def cWorldMixed : World :=
  { fsmeta := fun p =>
      if p = cDir then some Entry.dir
      else if p = cFileA then some Entry.file
      else if p = cLink then some (Entry.symlink cEtc)
      else none
    canonicalize := fun p => Except.ok p
    create_dir_all := fun _ => Except.ok ()
    rename := fun _ _ => Except.ok ()
    symlink := fun _ _ => Except.ok () }

/-! ## Claims -/

/-- C1: the claim says a `Directory`-classified input is recorded as
skipped and *not* further processed (not canonicalized, not moved, no
symlink created).  The code records it but, lacking a `continue` after
the `match` (main.rs:65-73), falls through: evaluating `add` on a single
existing directory shows it is canonicalized, renamed into the
repository and symlinked — the event trace contains a `rename` and a
`symlink` for that very path, alongside the "ignored" diagnostic that
claims it cannot be added. -/
theorem add_directory_is_still_processed :
    add cWorldDir [cDir] cConfig =
      (Outcome.ok,
        [Event.create_dir_all cRepo,
         Event.rename cDir [Comp.root, Comp.normal "repo", Comp.normal "docs"],
         Event.symlink [Comp.parent, Comp.parent, Comp.normal "repo", Comp.normal "docs"] cDir,
         Event.eprintln "The following paths are ignored:",
         Event.eprintln "/home/alice/docs\t(file is a directory, which cannot be added)"]) := by
  decide

/-- C2: the claim says a failing `fs::rename` or `symlink` makes `add`
return an `IoError` and stop the batch.  The code discards both
`Result`s, so `add` is oblivious to them: replacing the `rename` and
`symlink` oracles by anything at all never changes the outcome, and in a
world where every `rename` and `symlink` fails, a two-file batch is still
processed to the end and returns `Ok` with the full event trace. -/
theorem add_ignores_rename_and_symlink_failures :
    (∀ (w : World) (r s : RPath → RPath → Except String Unit)
      (files : List RPath) (config : Config),
      add (World.mk w.fsmeta w.canonicalize w.create_dir_all r s) files config
        = add w files config)
  ∧ add cWorldRenameFails [cFileA, cFileB] cConfig =
      (Outcome.ok,
        [Event.create_dir_all cRepo,
         Event.rename cFileA [Comp.root, Comp.normal "repo", Comp.normal "a.txt"],
         Event.symlink [Comp.parent, Comp.parent, Comp.normal "repo", Comp.normal "a.txt"] cFileA,
         Event.create_dir_all cRepo,
         Event.rename cFileB [Comp.root, Comp.normal "repo", Comp.normal "b.txt"],
         Event.symlink [Comp.parent, Comp.parent, Comp.normal "repo", Comp.normal "b.txt"] cFileB]) := by
  constructor
  · intro w r s files config
    simp only [add, addLoop_rename_symlink_irrel]
  · decide

/-- C3: on canonical absolute paths, `relative_path_from` returns one
`..` per component popped from `base` to reach the longest prefix it
shares with `target` (`cpl` is exactly the number of components that can
be kept: kept components form a prefix of `target`, and no larger pop-out
point does), followed by the suffix of `target` after that common prefix;
in particular the two examples from the specification hold. -/
theorem relative_path_from_ascends_to_common_ancestor :
    (∀ bs ts : List Comp, Comp.root ∉ ts →
      relative_path_from_canon (Comp.root :: bs) (Comp.root :: ts)
        = Except.ok (List.replicate (bs.length - cpl bs ts) Comp.parent
            ++ ts.drop (cpl bs ts)))
  ∧ (∀ bs ts : List Comp, bs.take (cpl bs ts) <+: ts)
  ∧ (∀ (bs ts : List Comp) (j : Nat), j ≤ bs.length → bs.take j <+: ts →
      j ≤ cpl bs ts)
  ∧ relative_path_from_str "/usr".data "/usr/share".data
      = Except.ok [Comp.normal "share"]
  ∧ relative_path_from_str "/usr/bin".data "/usr/share".data
      = Except.ok [Comp.parent, Comp.normal "share"] := by
  refine ⟨?_, ?_, ?_, by decide, by decide⟩
  · intro bs ts hroot
    rw [relative_path_from_canon_abs]
    rw [pathPush_eq_append (drop_head_ne_root hroot)]
  · intro bs ts
    rw [cpl_take]
    exact List.take_prefix _ _
  · intro bs ts j hj hp
    exact le_cpl_of_take hj hp

/-- Witness for C3 at `/usr/bin` → `/usr/share`: the root hypothesis and
the prefix-maximality hypotheses hold at concrete inputs. -/
theorem relative_path_from_ascends_to_common_ancestor_witness :
    (Comp.root ∉ ([Comp.normal "usr", Comp.normal "share"] : List Comp)
      ∧ relative_path_from_canon
          [Comp.root, Comp.normal "usr", Comp.normal "bin"]
          [Comp.root, Comp.normal "usr", Comp.normal "share"]
        = Except.ok (List.replicate
            (([Comp.normal "usr", Comp.normal "bin"] : List Comp).length
              - cpl [Comp.normal "usr", Comp.normal "bin"]
                  [Comp.normal "usr", Comp.normal "share"]) Comp.parent
            ++ ([Comp.normal "usr", Comp.normal "share"] : List Comp).drop
                (cpl [Comp.normal "usr", Comp.normal "bin"]
                  [Comp.normal "usr", Comp.normal "share"])))
  ∧ ((1 : Nat) ≤ ([Comp.normal "usr", Comp.normal "bin"] : List Comp).length
      ∧ ([Comp.normal "usr", Comp.normal "bin"] : List Comp).take 1
          <+: [Comp.normal "usr", Comp.normal "share"]
      ∧ 1 ≤ cpl [Comp.normal "usr", Comp.normal "bin"]
          [Comp.normal "usr", Comp.normal "share"]) :=
  ⟨⟨by decide,
    relative_path_from_ascends_to_common_ancestor.1
      [Comp.normal "usr", Comp.normal "bin"]
      [Comp.normal "usr", Comp.normal "share"] (by decide)⟩,
   ⟨by decide, by decide,
    relative_path_from_ascends_to_common_ancestor.2.2.1
      [Comp.normal "usr", Comp.normal "bin"]
      [Comp.normal "usr", Comp.normal "share"] 1 (by decide) (by decide)⟩⟩

/-- C4: the ancestor loop always terminates — every iteration shortens
`base` (`popPath` strictly decreases the length), and running the loop
with any iteration budget above `base.length` gives the completed result,
so it finishes within `base.length + 1` iterations; when `base` is down
to the bare root and still not a prefix of `target`, it fails with the
no-common-ancestor error instead of looping; and for two canonical
absolute paths (which share the root) the error branch is unreachable. -/
theorem relative_path_from_loop_terminates :
    (∀ (xs b : RPath), popPath xs = some b → b.length < xs.length)
  ∧ (∀ (f : Nat) (base target : RPath) (c : Nat), base.length < f →
      relLoopFuel f base target c = relLoop base target c)
  ∧ (∀ (target : RPath) (c : Nat), ¬ [Comp.root] <+: target →
      relLoop [Comp.root] target c
        = Except.error "base cannot be a prefix of target")
  ∧ (∀ bs ts : List Comp,
      (relative_path_from_canon (Comp.root :: bs) (Comp.root :: ts)).isOk = true) := by
  refine ⟨?_, ?_, ?_, ?_⟩
  · intro xs b h
    exact popPath_length h
  · intro f base target c h
    exact relLoop_fuel h
  · intro target c h
    simp [relLoop, relLoopFuel, popPath, h]
  · intro bs ts
    rw [relative_path_from_canon_abs]
    rfl

/-- Witness for C4: one pop shortens `/usr` to `/`; fuel 7 agrees with
the completed loop on `/usr/bin`; the bare root fails against the
relative path `x`. -/
theorem relative_path_from_loop_terminates_witness :
    (popPath [Comp.root, Comp.normal "usr"] = some [Comp.root]
      ∧ ([Comp.root] : RPath).length < ([Comp.root, Comp.normal "usr"] : RPath).length)
  ∧ (([Comp.root, Comp.normal "usr", Comp.normal "bin"] : RPath).length < 7
      ∧ relLoopFuel 7 [Comp.root, Comp.normal "usr", Comp.normal "bin"]
          [Comp.root, Comp.normal "usr", Comp.normal "share"] 0
        = relLoop [Comp.root, Comp.normal "usr", Comp.normal "bin"]
            [Comp.root, Comp.normal "usr", Comp.normal "share"] 0)
  ∧ (¬ [Comp.root] <+: ([Comp.normal "x"] : RPath)
      ∧ relLoop [Comp.root] [Comp.normal "x"] 0
        = Except.error "base cannot be a prefix of target") :=
  ⟨⟨by decide,
    relative_path_from_loop_terminates.1 [Comp.root, Comp.normal "usr"]
      [Comp.root] (by decide)⟩,
   ⟨by decide,
    relative_path_from_loop_terminates.2.1 7
      [Comp.root, Comp.normal "usr", Comp.normal "bin"]
      [Comp.root, Comp.normal "usr", Comp.normal "share"] 0 (by decide)⟩,
   ⟨by decide,
    relative_path_from_loop_terminates.2.2.1 [Comp.normal "x"] 0 (by decide)⟩⟩

/-- C5: `expand_tilde` leaves a path alone unless its first component is
`~`; on exactly `~` it returns the home directory (absent when the home
directory is absent); on `~/...` it returns the home directory joined
with the remainder after stripping the `~`; and the specification's
examples with home `/home/alice` hold (at the component level
`/home/alice/` and `/home/alice` are the same path, as for Rust's
`PathBuf` equality). -/
theorem expand_tilde_spec :
    (∀ (home : Option RPath) (path : RPath), ¬ [Comp.normal "~"] <+: path →
      expand_tilde home path = some path)
  ∧ (∀ home : Option RPath, expand_tilde home [Comp.normal "~"] = home)
  ∧ (∀ (home rest : RPath), rest ≠ [] → rest.head? ≠ some Comp.root →
      expand_tilde (some home) (Comp.normal "~" :: rest) = some (home ++ rest))
  ∧ expand_tilde (some (parsePath "/home/alice".data)) (parsePath "~/foo".data)
      = some (parsePath "/home/alice/foo".data)
  ∧ expand_tilde (some (parsePath "/home/alice".data)) (parsePath "~/".data)
      = some (parsePath "/home/alice/".data)
  ∧ expand_tilde (some (parsePath "/home/alice".data)) (parsePath "~".data)
      = some (parsePath "/home/alice".data)
  ∧ expand_tilde none (parsePath "~".data) = none := by
  refine ⟨?_, ?_, ?_, by decide, by decide, by decide, by decide⟩
  · intro home path h
    simp [expand_tilde, h]
  · intro home
    simp [expand_tilde]
  · intro home rest h1 h2
    have hpre : [Comp.normal "~"] <+: (Comp.normal "~" :: rest) := ⟨rest, rfl⟩
    have hne : (Comp.normal "~" :: rest) ≠ [Comp.normal "~"] := by simp [h1]
    simp [expand_tilde, hpre, hne, pathPush_eq_append h2]

/-- Witness for C5: a path not starting with `~` is unchanged, and
`~/foo` with home `/home/alice` joins. -/
theorem expand_tilde_spec_witness :
    (¬ [Comp.normal "~"] <+: parsePath "/foo/bar".data
      ∧ expand_tilde (some (parsePath "/home/alice".data)) (parsePath "/foo/bar".data)
          = some (parsePath "/foo/bar".data))
  ∧ (([Comp.normal "foo"] : RPath) ≠ []
      ∧ ([Comp.normal "foo"] : RPath).head? ≠ some Comp.root
      ∧ expand_tilde (some [Comp.root, Comp.normal "home", Comp.normal "alice"])
          (Comp.normal "~" :: [Comp.normal "foo"])
          = some ([Comp.root, Comp.normal "home", Comp.normal "alice"]
              ++ [Comp.normal "foo"])) :=
  ⟨⟨by decide, expand_tilde_spec.1 (some (parsePath "/home/alice".data))
      (parsePath "/foo/bar".data) (by decide)⟩,
   ⟨by decide, by decide,
    expand_tilde_spec.2.2.1 [Comp.root, Comp.normal "home", Comp.normal "alice"]
      [Comp.normal "foo"] (by decide) (by decide)⟩⟩

/-- C9: a user-qualified tilde `~name/...` (non-empty `name` glued to the
tilde, so the first component is the single name `~name`) is not
expanded: its first component differs from `~`, so the path comes back
unchanged, as for the specification's `~bob/foo/bar` example. -/
theorem expand_tilde_user_qualified_unchanged :
    (∀ (home : Option RPath) (nm : String) (rest : RPath), nm ≠ "" →
      expand_tilde home (Comp.normal ("~" ++ nm) :: rest)
        = some (Comp.normal ("~" ++ nm) :: rest))
  ∧ (∀ home : Option RPath,
      expand_tilde home (parsePath "~bob/foo/bar".data)
        = some (parsePath "~bob/foo/bar".data)) := by
  constructor
  · intro home nm rest h
    have hne : Comp.normal "~" ≠ Comp.normal ("~" ++ nm) := by
      intro hc
      apply h
      have hs : "~" ++ nm = "~" := (Comp.normal.inj hc).symm
      have h2 := congrArg String.length hs
      simp [String.length_append] at h2
      apply String.ext
      have h3 : nm.data.length = 0 := h2
      simpa using List.length_eq_zero.mp h3
    have hnp : ¬ [Comp.normal "~"] <+: (Comp.normal ("~" ++ nm) :: rest) := by
      intro hp
      exact hne (List.cons_prefix_cons.mp hp).1
    simp [expand_tilde, hnp]
  · intro home
    have hnp : ¬ [Comp.normal "~"] <+: parsePath "~bob/foo/bar".data := by decide
    simp [expand_tilde, hnp]

/-- Witness for C9 at name `bob`. -/
theorem expand_tilde_user_qualified_unchanged_witness :
    ("bob" : String) ≠ ""
  ∧ expand_tilde none (Comp.normal ("~" ++ "bob") :: [Comp.normal "foo"])
      = some (Comp.normal ("~" ++ "bob") :: [Comp.normal "foo"]) :=
  ⟨by decide,
   expand_tilde_user_qualified_unchanged.1 none "bob" [Comp.normal "foo"] (by decide)⟩

/-- C6: `file_type` reads only the link-aware metadata of the queried
path — a symlink entry is always classified `Symlink`, whatever (if
anything) sits at its target, and the answer depends on nothing but the
metadata at that one path — and it returns an error exactly when that
metadata cannot be read. -/
theorem file_type_link_aware :
    (∀ (fs : FSMeta) (p t : RPath), fs p = some (Entry.symlink t) →
      file_type fs p = Except.ok FileType.Symlink)
  ∧ (∀ (fs fs' : FSMeta) (p : RPath), fs p = fs' p →
      file_type fs p = file_type fs' p)
  ∧ (∀ (fs : FSMeta) (p : RPath),
      (∃ e, file_type fs p = Except.error e) ↔ fs p = none) := by
  refine ⟨?_, ?_, ?_⟩
  · intro fs p t h
    simp [file_type, h, Entry.is_dir, Entry.is_file, Entry.is_symlink]
  · intro fs fs' p h
    unfold file_type
    rw [h]
  · intro fs p
    cases h : fs p with
    | none => simp [file_type, h]
    | some e =>
      cases e <;>
        simp [file_type, h, Entry.is_dir, Entry.is_file, Entry.is_symlink]

/-- Link-aware metadata where `/home/alice/link` is a symlink whose
target `/etc/passwd` is a directory entry: classification must say
`Symlink`, not `Dir`. -/
def cMetaLink : FSMeta := fun p =>
  if p = cLink then some (Entry.symlink cEtc)
  else if p = cEtc then some Entry.dir
  else none

/-- Witness for C6: the symlink-over-directory world classifies the link
as `Symlink`, and two metadata maps agreeing at a path classify it
identically. -/
theorem file_type_link_aware_witness :
    (cMetaLink cLink = some (Entry.symlink cEtc)
      ∧ file_type cMetaLink cLink = Except.ok FileType.Symlink)
  ∧ (cMetaLink cDir = (fun _ => (none : Option Entry)) cDir
      ∧ file_type cMetaLink cDir = file_type (fun _ => none) cDir) :=
  ⟨⟨by decide, file_type_link_aware.1 cMetaLink cLink cEtc (by decide)⟩,
   ⟨by decide, file_type_link_aware.2.1 cMetaLink (fun _ => none) cDir (by decide)⟩⟩

/-- C7: when base and target coincide the loop stops immediately with
ascend count 0 and an empty stripped suffix, so the result is the empty
(current-directory) path; and a trailing slash on `base` is normalized
away before resolving, so it never changes the result. -/
theorem relative_path_from_self_and_trailing_slash :
    (∀ p : RPath, relative_path_from_canon p p = Except.ok [])
  ∧ (∀ (base target : List Char), base ≠ [] →
      relative_path_from_str (base ++ ['/']) target
        = relative_path_from_str base target)
  ∧ relative_path_from_str "/usr/".data "/usr/share".data
      = relative_path_from_str "/usr".data "/usr/share".data := by
  refine ⟨?_, ?_, by decide⟩
  · intro p
    have hzero : relLoop p p 0 = Except.ok (0, ([] : RPath)) := by
      rw [relLoop, relLoopFuel]
      simp
    simp [relative_path_from_canon, hzero, pathPush]
  · intro base target h
    rw [relative_path_from_str, relative_path_from_str, parsePath_append_slash h]

/-- Witness for C7 at `/usr` with a trailing slash added. -/
theorem relative_path_from_self_and_trailing_slash_witness :
    "/usr".data ≠ []
  ∧ relative_path_from_str ("/usr".data ++ ['/']) "/usr/share".data
      = relative_path_from_str "/usr".data "/usr/share".data :=
  ⟨by decide,
   relative_path_from_self_and_trailing_slash.2.1 "/usr".data "/usr/share".data
     (by decide)⟩

/-- C10: round trip of the resolver — for canonical absolute paths
(`target` has no root or parent marker among its named components),
joining `base` with the relative path `relative_path_from` produced and
resolving the `..` markers lands exactly on `target`. -/
theorem relative_path_from_roundtrip (bs ts rel : List Comp)
    (hroot : Comp.root ∉ ts) (hpar : Comp.parent ∉ ts)
    (h : relative_path_from_canon (Comp.root :: bs) (Comp.root :: ts)
      = Except.ok rel) :
    normJoin (Comp.root :: bs) rel = Comp.root :: ts := by
  rw [relative_path_from_canon_abs] at h
  have hrel : rel = List.replicate (bs.length - cpl bs ts) Comp.parent
      ++ ts.drop (cpl bs ts) := by
    have hinj := Except.ok.inj h
    rw [← hinj, pathPush_eq_append (drop_head_ne_root hroot)]
  rw [hrel]
  unfold normJoin
  rw [List.foldl_append]
  rw [foldl_replicate_parent (bs.length - cpl bs ts) bs (Nat.sub_le _ _)]
  have hle : cpl bs ts ≤ bs.length := cpl_le_left bs ts
  have hsub : bs.length - (bs.length - cpl bs ts) = cpl bs ts := by omega
  rw [hsub]
  have hpardrop : Comp.parent ∉ ts.drop (cpl bs ts) :=
    fun hm => hpar (List.drop_subset _ _ hm)
  rw [foldl_no_parent _ _ hpardrop]
  rw [cpl_take]
  simp [List.take_append_drop]

/-- Witness for C10: `/home/alice` to `/repo/paper.pdf` resolves to
`../../repo/paper.pdf`, and joining and normalizing lands back on the
target. -/
theorem relative_path_from_roundtrip_witness :
    Comp.root ∉ ([Comp.normal "repo", Comp.normal "paper.pdf"] : List Comp)
  ∧ Comp.parent ∉ ([Comp.normal "repo", Comp.normal "paper.pdf"] : List Comp)
  ∧ relative_path_from_canon
      [Comp.root, Comp.normal "home", Comp.normal "alice"]
      [Comp.root, Comp.normal "repo", Comp.normal "paper.pdf"]
      = Except.ok [Comp.parent, Comp.parent, Comp.normal "repo", Comp.normal "paper.pdf"]
  ∧ normJoin [Comp.root, Comp.normal "home", Comp.normal "alice"]
      [Comp.parent, Comp.parent, Comp.normal "repo", Comp.normal "paper.pdf"]
      = [Comp.root, Comp.normal "repo", Comp.normal "paper.pdf"] :=
  ⟨by decide, by decide, by decide,
   relative_path_from_roundtrip [Comp.normal "home", Comp.normal "alice"]
     [Comp.normal "repo", Comp.normal "paper.pdf"]
     [Comp.parent, Comp.parent, Comp.normal "repo", Comp.normal "paper.pdf"]
     (by decide) (by decide) (by decide)⟩

/-- C8: when every filesystem call of the batch succeeds, `add` returns
success and its trace ends with the diagnostic block — the header line
followed by one line per skipped (path, reason) pair, in input order —
written exactly once, after all processing events (none of which is a
stderr line).  Recorded directory/symlink inputs never make the run
fail. -/
theorem add_reports_skipped_and_succeeds (w : World) (config : Config)
    (files : List RPath)
    (hok : ∀ fp ∈ files, stepOk w config fp = true)
    (hsk : skippedOf w files ≠ []) :
    ∃ evs, add w files config
        = (Outcome.ok,
          evs ++ Event.eprintln "The following paths are ignored:"
            :: (skippedOf w files).map
              (fun fr => Event.eprintln (display fr.1 ++ "\t(" ++ fr.2 ++ ")")))
      ∧ ∀ e ∈ evs, e.isEprintln = false := by
  obtain ⟨evs, heq, hfree⟩ := addLoop_ok w config files [] [] hok
  refine ⟨evs, ?_, hfree⟩
  unfold add
  rw [heq]
  simp only [List.nil_append]
  rw [if_pos (List.length_pos.mpr hsk)]
  simp [List.append_assoc]

/-- Witness for C8: a batch of a directory, a regular file and a symlink
in a world where every call succeeds. -/
theorem add_reports_skipped_and_succeeds_witness :
    (∀ fp ∈ [cDir, cFileA, cLink], stepOk cWorldMixed cConfig fp = true)
  ∧ skippedOf cWorldMixed [cDir, cFileA, cLink] ≠ []
  ∧ (∃ evs, add cWorldMixed [cDir, cFileA, cLink] cConfig
        = (Outcome.ok,
          evs ++ Event.eprintln "The following paths are ignored:"
            :: (skippedOf cWorldMixed [cDir, cFileA, cLink]).map
              (fun fr => Event.eprintln (display fr.1 ++ "\t(" ++ fr.2 ++ ")")))
      ∧ ∀ e ∈ evs, e.isEprintln = false) :=
  ⟨by decide, by decide,
   add_reports_skipped_and_succeeds cWorldMixed cConfig [cDir, cFileA, cLink]
     (by decide) (by decide)⟩

end Paperman
